import Mathlib

/-!
Shallow embedding of the NotesVault localization subsystem
(`src/lib/services/localizationService.ts` and the translation source
registry `src/resources/localization/index.ts`).

Conventions of the embedding:
* TypeScript objects whose keys matter are `List (String × String)`
  association lists (JSON objects have no duplicate keys).
* The MMKV durable store is a `List (String × String)` of key/value pairs;
  `set` overwrites, `clearAll` empties, `getAllKeys` enumerates.
* Fallible external calls (storage reads, the device-locale provider,
  `i18n` engine calls, storage writes) are driven by explicit outcome
  values / failure flags, so that the `try`/`catch` structure of the
  source is represented as explicit case analysis.
-/

/-- `AppLanguage` from `src/resources/localization/index.ts`: the closed
set of supported language codes. -/
inductive AppLanguage where
  | en
  | fr
deriving DecidableEq, Repr

/-- The string code of a language (the enum member's value). -/
def langCode : AppLanguage → String
  | .en => "en"
  | .fr => "fr"

/-- `Object.values(AppLanguage)` in declaration order. -/
def supportedLanguages : List AppLanguage := [.en, .fr]

/-- `Object.values(AppLanguage).includes(s)` together with the cast back
to the enum: `some l` iff the string names a supported language. -/
def parseLang (s : String) : Option AppLanguage :=
  if s = "en" then some .en
  else if s = "fr" then some .fr
  else none

/-- `FALLBACK_LANGUAGE = AppLanguage.en`. -/
def FALLBACK_LANGUAGE : AppLanguage := .en

/-- A translation table: a JSON object mapping localization keys to
string templates. -/
abbrev Table : Type := List (String × String)

/-- First-match association lookup (property access `obj[k]` on a JSON
object, whose keys are unique). -/
def findIn {α β : Type} [DecidableEq α] (c : List (α × β)) (k : α) : Option β :=
  match c with
  | [] => none
  | (k', v) :: rest => if k' = k then some v else findIn rest k

/-- The key list of a table. -/
def keysOf (t : Table) : List String :=
  t.map Prod.fst

/-- JavaScript object spread `{ ...base, ...extra }` on tables with unique
keys: keys of `base` in order (values overridden by `extra` where present),
followed by the keys of `extra` not in `base`. -/
def jsMerge (base extra : Table) : Table :=
  (base.map fun p =>
    match findIn extra p.1 with
    | some v => (p.1, v)
    | none => p)
  ++ extra.filter fun p => (findIn base p.1).isNone

/-- `languageFactories` from `src/resources/localization/index.ts`,
parametrized by the contents of `en.json` and `fr.json` (the JSON data
files are input data, not logic): `en: () => en`,
`fr: () => ({ ...en, ...fr })`. -/
def languageFactoriesImpl (enTab frTab : Table) : AppLanguage → Table
  | .en => enTab
  | .fr => jsMerge enTab frTab

/-- Modelled from the spec: the JSON translation tables `en.json` and
`fr.json` are not part of the modelled source. Spec §3 fixes their shape:
the reference language's table is complete and defines the canonical key
space, and "non-reference tables may be partial", i.e. every key of a
non-reference raw table is a canonical key. `IsPartialOf t ref` states
that every key of `t` is a key of `ref`. -/
def IsPartialOf (t ref : Table) : Prop :=
  ∀ k, k ∈ keysOf t → k ∈ keysOf ref

instance (t ref : Table) : Decidable (IsPartialOf t ref) := by
  unfold IsPartialOf
  infer_instance

/-! ### Language Resolver (`getInitialLanguage` and its three readers) -/

/-- Outcome of one fallible external read (a storage `getString` or the
device-locale query): the call may throw (`fail`), return no value
(`absent`: `undefined`/empty store slot, or an empty locale list), or
return a string. -/
inductive ReadOutcome where
  | fail
  | absent
  | val (s : String)
deriving DecidableEq, Repr

/-- The external world `getInitialLanguage` consults: the persisted
`language_override` slot, the persisted `current_language` slot, and the
first device locale's language code. -/
structure ResolverEnv where
  override : ReadOutcome
  saved : ReadOutcome
  device : ReadOutcome
deriving DecidableEq, Repr

/-- Shared shape of `getSavedLanguage` / `getLanguageOverride`: inside a
`try`/`catch`, read a string and return it as a language iff it is truthy
and names a supported language; a throw or a missing value yields `null`.
(`parseLang ""` is `none`, so the truthiness test is absorbed.) -/
def readLang (r : ReadOutcome) : Option AppLanguage :=
  match r with
  | .val s => parseLang s
  | _ => none

/-- `getLanguageOverride`: read `STORAGE_KEYS.LANGUAGE_OVERRIDE`. -/
def getLanguageOverride (env : ResolverEnv) : Option AppLanguage :=
  readLang env.override

/-- `getSavedLanguage`: read `STORAGE_KEYS.CURRENT_LANGUAGE`. -/
def getSavedLanguage (env : ResolverEnv) : Option AppLanguage :=
  readLang env.saved

/-- `getDeviceLanguage`: query the locale provider inside `try`/`catch`;
return the first locale's language code when it is supported, else the
fallback language. -/
def getDeviceLanguage (env : ResolverEnv) : AppLanguage :=
  match readLang env.device with
  | some l => l
  | none => FALLBACK_LANGUAGE

/-- `LocalizationService.getInitialLanguage`. -/
def getInitialLanguage (allowLanguageOverride : Bool) (env : ResolverEnv) :
    AppLanguage :=
  match (if allowLanguageOverride then getLanguageOverride env else none) with
  | some override => override
  | none =>
    match getSavedLanguage env with
    | some savedLanguage => savedLanguage
    | none => getDeviceLanguage env

/-- Modelled from the spec: `resolveInitialLanguage` as §4.2 words it —
first match of the precedence chain wins: (1) if `allowOverride` and the
persisted override names a supported language, return it; (2) else a
persisted saved language naming a supported language; (3) else the device
locale's first preference when its language code is supported; (4) else
the fallback constant; any read failure is treated as no value at that
level. -/
def resolveInitialLanguageSpec (allowOverride : Bool) (env : ResolverEnv) :
    AppLanguage :=
  if allowOverride = true ∧ (readLang env.override).isSome then
    (readLang env.override).getD FALLBACK_LANGUAGE
  else if (readLang env.saved).isSome then
    (readLang env.saved).getD FALLBACK_LANGUAGE
  else if (readLang env.device).isSome then
    (readLang env.device).getD FALLBACK_LANGUAGE
  else
    FALLBACK_LANGUAGE

/-! ### Change Notification Bus (`LanguageChangeEmitter`) -/

/-- What a listener callback does when invoked, beyond receiving the
language: nothing (`record`), or call the unsubscribe closure of the
listener with the given id (`unsub`), modelling
`this.listeners.splice(indexOf(listener), 1)` run from inside a
callback. Listener ids stand for the function identities `indexOf`
compares. -/
inductive LBehavior where
  | record
  | unsub (target : Nat)
deriving DecidableEq, Repr

/-- One registered listener. -/
structure Listener where
  id : Nat
  behavior : LBehavior
deriving DecidableEq, Repr

/-- Emitter state: the mutable `listeners` array, plus an observation log
recording each callback invocation `(listener id, language received)`. -/
structure EmitterSt where
  listeners : List Listener
  log : List (Nat × AppLanguage)
deriving DecidableEq, Repr

/-- The unsubscribe closure returned by `subscribe`: find the listener by
identity (`indexOf`) and `splice` it out; no-op when absent. -/
def removeById (ls : List Listener) (i : Nat) : List Listener :=
  match ls with
  | [] => []
  | l :: rest => if l.id = i then rest else l :: removeById rest i

/-- `subscribe`: `this.listeners.push(listener)`. -/
def subscribeListener (st : EmitterSt) (l : Listener) : EmitterSt :=
  { st with listeners := st.listeners ++ [l] }

/-- Invoke one listener callback: it observes the language, then performs
its behavior. -/
def invokeListener (lang : AppLanguage) (l : Listener) (st : EmitterSt) :
    EmitterSt :=
  let st1 : EmitterSt := { st with log := st.log ++ [(l.id, lang)] }
  match l.behavior with
  | .record => st1
  | .unsub t => { st1 with listeners := removeById st1.listeners t }

/-- The loop of `Array.prototype.forEach` as `emit` runs it: the length is
captured once at the start, each index `k < len` is visited in order, and
the callback is called only when index `k` still exists in the (possibly
spliced) live array. `fuel` is the number of indices still to visit
(`len - k`), so the recursion is structural. -/
def emitLoop (lang : AppLanguage) : Nat → Nat → EmitterSt → EmitterSt
  | 0, _, st => st
  | fuel + 1, k, st =>
    let st1 :=
      match st.listeners.get? k with
      | some l => invokeListener lang l st
      | none => st
    emitLoop lang fuel (k + 1) st1

/-- `LanguageChangeEmitter.emit`:
`this.listeners.forEach(listener => listener(language))`. -/
def emit (lang : AppLanguage) (st : EmitterSt) : EmitterSt :=
  emitLoop lang st.listeners.length 0 st

/-! ### The lookup entry point `t` -/

/-- Result of `LocalizationService.t`: either the raw `i18n.t` function
itself (returned via `as any`), or a string. -/
inductive TResult where
  | rawFn
  | str (s : String)
deriving DecidableEq, Repr

/-- The external `i18n.t` engine call on a key: resolve in the active
language's table, else in the fallback language's table (`fallbackLng`),
else echo the key (i18next's default missing-key behavior). -/
def i18nT (activeTable fallbackTable : Table) (key : String) : String :=
  match findIn activeTable key with
  | some v => v
  | none =>
    match findIn fallbackTable key with
    | some v => v
    | none => key

/-- `LocalizationService.t(key?, options?)`: `if (!key) return i18n.t as
any; return i18n.t(key, options)`. A missing argument is `none`; the only
falsy string is `""`. -/
def tImpl (activeTable fallbackTable : Table) (key : Option String) : TResult :=
  match key with
  | none => .rawFn
  | some k =>
    if k = "" then .rawFn
    else .str (i18nT activeTable fallbackTable k)

/-! ### Translation Cache (`loadTranslations`, `cacheTranslations`) and
the durable store -/

/-- `storage.set(k, v)`: overwrite the slot for `k`. -/
def setStore (st : List (String × String)) (k v : String) :
    List (String × String) :=
  (st.filter fun p => p.1 ≠ k) ++ [(k, v)]

/-- `JSON.stringify` on a table, modelled as a concrete injective-enough
text rendering; only its existence matters to the claims. -/
def serializeTable (t : Table) : String :=
  "\x7b" ++
    String.intercalate ","
      (t.map fun p => "\"" ++ p.1 ++ "\":\"" ++ p.2 ++ "\"") ++
  "\x7d"

/-- Combined state of the in-memory `translationCache` map, the MMKV
store, and an instrumentation counter of how many times the per-language
merge computation inside `loadTranslations` actually ran. -/
structure CacheSt where
  cache : List (AppLanguage × Table)
  storage : List (String × String)
  mergeCount : Nat
deriving DecidableEq

/-- `cacheTranslations`: mirror a merged table to the durable store under
`lang_cache_<code>` inside `try`/`catch`; a write failure (`sf = true`)
is logged and leaves the store untouched. -/
def cacheTranslations (sf : Bool) (lang : AppLanguage) (tab : Table)
    (storage : List (String × String)) : List (String × String) :=
  if sf then storage
  else setStore storage ("lang_cache_" ++ langCode lang) (serializeTable tab)

/-- The merged table `loadTranslations` computes for one language:
`translations[language] ? { ...base, ...translations[language] } : base`
where `base = languageFactories[language]()`. -/
def mergedFor (enTab frTab : Table) (translations : AppLanguage → Option Table)
    (lang : AppLanguage) : Table :=
  match translations lang with
  | some o => jsMerge (languageFactoriesImpl enTab frTab lang) o
  | none => languageFactoriesImpl enTab frTab lang

/-- One iteration of the `for (const language of Object.values(AppLanguage))`
loop in `loadTranslations`: skip a cached language; otherwise compute the
merged table, put it in the in-memory map, and mirror it to storage
(best-effort). The factories are pure, so the surrounding `try`/`catch`
never fires. -/
def loadOne (enTab frTab : Table) (sf : Bool)
    (translations : AppLanguage → Option Table) (lang : AppLanguage)
    (st : CacheSt) : CacheSt :=
  match findIn st.cache lang with
  | some _ => st
  | none =>
    let merged := mergedFor enTab frTab translations lang
    { cache := st.cache ++ [(lang, merged)]
      storage := cacheTranslations sf lang merged st.storage
      mergeCount := st.mergeCount + 1 }

/-- `LocalizationService.loadTranslations`: the loop over
`Object.values(AppLanguage) = [en, fr]` in order. -/
def loadTranslations (enTab frTab : Table) (sf : Bool)
    (translations : AppLanguage → Option Table) (st : CacheSt) : CacheSt :=
  loadOne enTab frTab sf translations .fr
    (loadOne enTab frTab sf translations .en st)

/-! ### Localization Facade -/

/-- Facade state: the singleton's fields plus the module-level cache,
store, and emitter. -/
structure FacadeSt where
  currentLanguage : AppLanguage
  isInitialized : Bool
  cacheSt : CacheSt
  emitter : EmitterSt
deriving DecidableEq

/-- `saveLanguage`: `storage.set('current_language', language)` inside
`try`/`catch`; a write failure (`sf = true`) is logged and leaves the
store untouched. -/
def saveLanguage (sf : Bool) (storage : List (String × String))
    (language : String) : List (String × String) :=
  if sf then storage
  else setStore storage "current_language" language

/-- `LocalizationService.changeLanguage(language)`. `i18nFails` drives
whether the external `i18n.changeLanguage` call throws; `sf` drives
whether the storage write in `saveLanguage` throws. Returns the thrown
error message (if any) together with the state after the call. -/
def changeLanguage (i18nFails sf : Bool) (st : FacadeSt) (language : String) :
    Option String × FacadeSt :=
  match parseLang language with
  | none => (some ("Unsupported language: " ++ language), st)
  | some lang =>
    if i18nFails then (some "Failed to change language", st)
    else
      let st1 : FacadeSt := { st with currentLanguage := lang }
      let st2 : FacadeSt :=
        { st1 with
          cacheSt :=
            { st1.cacheSt with
              storage := saveLanguage sf st1.cacheSt.storage language } }
      let st3 : FacadeSt := { st2 with emitter := emit lang st2.emitter }
      (none, st3)

/-- `LocalizationService.initialize(translations, allowLanguageOverride)`.
`i18nInitFails` drives whether `i18n.use(initReactI18next).init(...)`
throws; `sf` drives storage-write failures inside `loadTranslations`.
Resolution and `loadTranslations` run before the engine call, so their
effects precede a failing `init`. -/
def initializeFacade (env : ResolverEnv) (enTab frTab : Table)
    (i18nInitFails sf : Bool) (translations : AppLanguage → Option Table)
    (allowLanguageOverride : Bool) (st : FacadeSt) : Option String × FacadeSt :=
  if st.isInitialized then (none, st)
  else
    let initialLanguage := getInitialLanguage allowLanguageOverride env
    let st1 : FacadeSt :=
      { st with cacheSt := loadTranslations enTab frTab sf translations st.cacheSt }
    if i18nInitFails then (some "Failed to initialize localization", st1)
    else
      (none,
        { st1 with
          currentLanguage := initialLanguage
          isInitialized := true })

/-- `LocalizationService.clearCache`: `translationCache.clear()` then
`storage.clearAll()` inside `try`/`catch`; `clearAllFails` drives whether
`clearAll` throws (the in-memory `Map.clear` preceding it cannot). -/
def clearCache (clearAllFails : Bool) (st : FacadeSt) : FacadeSt :=
  { st with
    cacheSt :=
      { st.cacheSt with
        cache := []
        storage := if clearAllFails then st.cacheSt.storage else [] } }

/-- `LocalizationService.getCacheStats`:
`{ cachedLanguages: translationCache.size, storageSize: getAllKeys().length }`. -/
def getCacheStats (st : FacadeSt) : Nat × Nat :=
  (st.cacheSt.cache.length, st.cacheSt.storage.length)

/-! ## Helper lemmas about association lookup -/

theorem findIn_append {α β : Type} [DecidableEq α] (c d : List (α × β)) (k : α) :
    findIn (c ++ d) k =
      match findIn c k with
      | some v => some v
      | none => findIn d k := by
  induction c with
  | nil => simp [findIn]
  | cons p rest ih =>
    obtain ⟨k1, v⟩ := p
    by_cases h : k1 = k <;> simp [findIn, h, ih]

theorem findIn_isSome_iff {α β : Type} [DecidableEq α] (c : List (α × β)) (k : α) :
    (findIn c k).isSome ↔ k ∈ c.map Prod.fst := by
  induction c with
  | nil => simp [findIn]
  | cons p rest ih =>
    obtain ⟨k1, v⟩ := p
    by_cases h : k1 = k
    · simp [findIn, h]
    · simp [findIn, h, ih, Ne.symm h]

/-! ## C1 -/

/-- C1: `getInitialLanguage` returns exactly the first match of the
spec's precedence chain — persisted override (only when allowed and
supported), else persisted saved language (when supported), else the
device locale's first preference (when supported), else the fallback
`en`; a failed or absent read at any level is treated as no value there,
and resolution is total, always yielding a supported language. -/
theorem C1_getInitialLanguage_precedence (a : Bool) (env : ResolverEnv) :
    getInitialLanguage a env = resolveInitialLanguageSpec a env := by
  unfold getInitialLanguage resolveInitialLanguageSpec getLanguageOverride
    getSavedLanguage getDeviceLanguage
  cases a <;>
    rcases h1 : readLang env.override with _ | l1 <;>
      rcases h2 : readLang env.saved with _ | l2 <;>
        rcases h3 : readLang env.device with _ | l3 <;>
          simp [h1, h2, h3]

/-! ## C2 -/

/-- C2: for every supported language, the table produced by that
language's factory has exactly the key list of the reference language's
(`en`) table — every canonical key present, no extra keys — provided the
non-reference raw table is partial over the canonical key space. -/
theorem C2_factory_key_set (enTab frTab : Table) (hp : IsPartialOf frTab enTab)
    (L : AppLanguage) :
    keysOf (languageFactoriesImpl enTab frTab L) = keysOf enTab := by
  cases L with
  | en => rfl
  | fr =>
    show keysOf (jsMerge enTab frTab) = keysOf enTab
    unfold jsMerge keysOf
    have h1 : (enTab.map fun p =>
        match findIn frTab p.1 with
        | some v => (p.1, v)
        | none => p).map Prod.fst = enTab.map Prod.fst := by
      rw [List.map_map]
      apply List.map_congr_left
      intro p _
      rcases hf : findIn frTab p.1 with _ | v <;> simp [hf]
    have h2 : (frTab.filter fun p => (findIn enTab p.1).isNone) = [] := by
      rw [List.filter_eq_nil_iff]
      intro p hpmem
      have hmem : p.1 ∈ enTab.map Prod.fst :=
        hp p.1 (List.mem_map_of_mem Prod.fst hpmem)
      have hs : (findIn enTab p.1).isSome := (findIn_isSome_iff enTab p.1).2 hmem
      rcases hfi : findIn enTab p.1 with _ | v
      · rw [hfi] at hs
        simp at hs
      · simp [hfi]
    rw [List.map_append, h1, h2]
    simp

/-- Witness for C2 at a concrete registry: `fr.json` holding a strict
subset of the canonical keys, checked for the `fr` factory. -/
theorem C2_factory_key_set_witness :
    IsPartialOf [("a", "AA")] [("a", "A"), ("b", "B")]
    ∧ keysOf (languageFactoriesImpl [("a", "A"), ("b", "B")] [("a", "AA")] .fr) =
        keysOf [("a", "A"), ("b", "B")] :=
  ⟨by decide,
    C2_factory_key_set [("a", "A"), ("b", "B")] [("a", "AA")] (by decide) .fr⟩

/-! ## C3 -/

/-- C3: for every input outside the supported set, `changeLanguage`
raises the unsupported-language error and performs the check before any
mutation: the returned state is exactly the input state, so the active
language, the persisted saved language, the translation cache, and the
subscriber list are unchanged and no notification is emitted. -/
theorem C3_changeLanguage_unsupported (i18nFails sf : Bool) (st : FacadeSt)
    (language : String) (h : parseLang language = none) :
    changeLanguage i18nFails sf st language =
      (some ("Unsupported language: " ++ language), st) := by
  unfold changeLanguage
  rw [h]

/-- Witness for C3 at the concrete unsupported code `"de"`. -/
theorem C3_changeLanguage_unsupported_witness :
    parseLang "de" = none
    ∧ changeLanguage false false
        { currentLanguage := .en
          isInitialized := true
          cacheSt := { cache := [(.en, [("a", "A")])], storage := [("k", "v")], mergeCount := 1 }
          emitter := { listeners := [⟨0, .record⟩], log := [] } } "de" =
      (some ("Unsupported language: " ++ "de"),
        { currentLanguage := .en
          isInitialized := true
          cacheSt := { cache := [(.en, [("a", "A")])], storage := [("k", "v")], mergeCount := 1 }
          emitter := { listeners := [⟨0, .record⟩], log := [] } }) :=
  ⟨by decide,
    C3_changeLanguage_unsupported false false _ "de" (by decide)⟩

/-! ## C4 -/

/-- C4 (refuting the snapshot claim): `emit` iterates the live listener
array, not a snapshot. At the concrete input where listener 0
unsubscribes itself during the emit and listener 1 is also registered,
the emit completes without crashing but invokes only listener 0: the
self-splice shifts listener 1 to index 0, `forEach` moves on to index 1,
which no longer exists, and listener 1 — registered when the emit began —
is never invoked. -/
theorem C4_emit_skips_listener_after_self_unsubscribe :
    emit .fr { listeners := [⟨0, .unsub 0⟩, ⟨1, .record⟩], log := [] } =
      { listeners := [⟨1, .record⟩], log := [(0, .fr)] } := by
  decide

/-! ## C5 -/

/-- C5 (counterexample to the claim as stated): a truthy key that is
absent from the active language's merged table does NOT make `t` return
the raw lookup function — the call goes through the engine and returns a
string (here the key echo). -/
theorem C5_absent_truthy_key_returns_string :
    findIn [("a", "x")] "b" = none
    ∧ tImpl [("a", "x")] [("a", "x")] (some "b") = .str "b"
    ∧ tImpl [("a", "x")] [("a", "x")] (some "b") ≠ .rawFn := by
  decide

/-- C5 (amended): `t` returns the raw lookup function exactly when the
key argument is missing or falsy (the empty string is the only falsy
key string); for every truthy key present in the active table it returns
that key's resolved string. -/
theorem C5_t_rawFn_iff (act fb : Table) (key : Option String) :
    (tImpl act fb key = .rawFn ↔ (key = none ∨ key = some ""))
    ∧ (∀ k v, key = some k → k ≠ "" → findIn act k = some v →
        tImpl act fb key = .str v) := by
  constructor
  · rcases key with _ | k
    · simp [tImpl]
    · by_cases hk : k = "" <;> simp [tImpl, hk]
  · intro k v hkey hk hfind
    subst hkey
    simp [tImpl, hk, i18nT, hfind]

/-- Witness for C5's amended theorem at a concrete present key. -/
theorem C5_t_rawFn_iff_witness :
    tImpl [("a", "x")] [] (some "a") = .str "x" :=
  (C5_t_rawFn_iff [("a", "x")] [] (some "a")).2 "a" "x" rfl (by decide) (by decide)

/-! ## Cache lemmas for C6 and C7 -/

theorem loadOne_cached (enTab frTab : Table) (sf : Bool)
    (translations : AppLanguage → Option Table) (lang : AppLanguage)
    (st : CacheSt) (tab : Table) (h : findIn st.cache lang = some tab) :
    loadOne enTab frTab sf translations lang st = st := by
  unfold loadOne
  rw [h]

theorem loadOne_preserves (enTab frTab : Table) (sf : Bool)
    (translations : AppLanguage → Option Table) (lang l : AppLanguage)
    (st : CacheSt) (tab : Table) (h : findIn st.cache l = some tab) :
    findIn (loadOne enTab frTab sf translations lang st).cache l = some tab := by
  unfold loadOne
  rcases hc : findIn st.cache lang with _ | t
  · simp only []
    rw [findIn_append, h]
  · exact h

theorem loadOne_sets (enTab frTab : Table) (sf : Bool)
    (translations : AppLanguage → Option Table) (lang : AppLanguage)
    (st : CacheSt) :
    (findIn (loadOne enTab frTab sf translations lang st).cache lang).isSome := by
  unfold loadOne
  rcases hc : findIn st.cache lang with _ | t
  · simp only []
    rw [findIn_append, hc]
    simp [findIn]
  · simp [hc]

theorem loadOne_other (enTab frTab : Table) (sf : Bool)
    (translations : AppLanguage → Option Table) (lang l : AppLanguage)
    (st : CacheSt) (hne : l ≠ lang) :
    findIn (loadOne enTab frTab sf translations lang st).cache l =
      findIn st.cache l := by
  unfold loadOne
  rcases hc : findIn st.cache lang with _ | t
  · simp only []
    rw [findIn_append]
    rcases hl : findIn st.cache l with _ | t2
    · simp [findIn, Ne.symm hne]
    · rfl
  · rfl

theorem loadOne_mergeCount (enTab frTab : Table) (sf : Bool)
    (translations : AppLanguage → Option Table) (lang : AppLanguage)
    (st : CacheSt) :
    (loadOne enTab frTab sf translations lang st).mergeCount =
      st.mergeCount + (if (findIn st.cache lang).isSome then 0 else 1) := by
  unfold loadOne
  rcases hc : findIn st.cache lang with _ | t <;> simp [hc]

/-! ## C6 -/

/-- C6: `loadTranslations` is idempotent per language within the cache's
lifetime — running it on a state where it already ran changes nothing; a
language already present in the in-memory map keeps its entry unchanged;
and the number of merge computations performed equals the number of
supported languages missing from the cache, so cached languages are never
recomputed. -/
theorem C6_loadTranslations_idempotent (enTab frTab : Table) (sf : Bool)
    (translations : AppLanguage → Option Table) (st : CacheSt) :
    loadTranslations enTab frTab sf translations
        (loadTranslations enTab frTab sf translations st) =
      loadTranslations enTab frTab sf translations st
    ∧ (∀ lang tab, findIn st.cache lang = some tab →
        findIn (loadTranslations enTab frTab sf translations st).cache lang =
          some tab)
    ∧ (loadTranslations enTab frTab sf translations st).mergeCount =
        st.mergeCount +
          (supportedLanguages.filter fun l => (findIn st.cache l).isNone).length := by
  unfold loadTranslations
  refine ⟨?_, ?_, ?_⟩
  · have h1 := loadOne_sets enTab frTab sf translations .en st
    obtain ⟨t1, ht1⟩ := Option.isSome_iff_exists.1 h1
    have ht1b := loadOne_preserves enTab frTab sf translations .fr .en
      (loadOne enTab frTab sf translations .en st) t1 ht1
    have h2 := loadOne_sets enTab frTab sf translations .fr
      (loadOne enTab frTab sf translations .en st)
    obtain ⟨t2, ht2⟩ := Option.isSome_iff_exists.1 h2
    rw [loadOne_cached enTab frTab sf translations .en _ t1 ht1b,
      loadOne_cached enTab frTab sf translations .fr _ t2 ht2]
  · intro lang tab h
    exact loadOne_preserves enTab frTab sf translations .fr lang _ tab
      (loadOne_preserves enTab frTab sf translations .en lang st tab h)
  · rw [loadOne_mergeCount, loadOne_mergeCount,
      loadOne_other enTab frTab sf translations .en .fr st (by decide)]
    rcases he : findIn st.cache .en with _ | t1 <;>
      rcases hf : findIn st.cache .fr with _ | t2 <;>
        simp [supportedLanguages, he, hf]

/-- Witness for C6: a state with `en` already cached keeps that entry. -/
theorem C6_loadTranslations_idempotent_witness :
    findIn ([(AppLanguage.en, [("a", "A")])] : List (AppLanguage × Table)) .en =
      some [("a", "A")]
    ∧ findIn (loadTranslations [("a", "A")] [] false (fun _ => none)
        { cache := [(.en, [("a", "A")])], storage := [], mergeCount := 5 }).cache
        .en = some [("a", "A")] :=
  ⟨by decide,
    (C6_loadTranslations_idempotent [("a", "A")] [] false (fun _ => none)
      { cache := [(.en, [("a", "A")])], storage := [], mergeCount := 5 }).2.1
      .en [("a", "A")] (by decide)⟩

/-! ## Store lemmas for C7 -/

theorem findIn_filter_not_key {α β : Type} [DecidableEq α]
    (c : List (α × β)) (k : α) :
    findIn (c.filter fun p => p.1 ≠ k) k = none := by
  induction c with
  | nil => rfl
  | cons p rest ih =>
    obtain ⟨k1, v⟩ := p
    by_cases h : k1 = k
    · simpa [List.filter_cons, h] using ih
    · simpa [List.filter_cons, h, findIn] using ih

theorem findIn_filter_other {α β : Type} [DecidableEq α]
    (c : List (α × β)) (k k2 : α) (h : k ≠ k2) :
    findIn (c.filter fun p => p.1 ≠ k2) k = findIn c k := by
  induction c with
  | nil => rfl
  | cons p rest ih =>
    obtain ⟨k1, v⟩ := p
    by_cases h1 : k1 = k2
    · simpa [List.filter_cons, h1, findIn, Ne.symm h] using ih
    · by_cases h2 : k1 = k
      · simp [List.filter_cons, h1, h2, findIn, h]
      · simpa [List.filter_cons, h1, h2, findIn] using ih

theorem findIn_setStore_self (st : List (String × String)) (k v : String) :
    findIn (setStore st k v) k = some v := by
  unfold setStore
  rw [findIn_append, findIn_filter_not_key]
  simp [findIn]

theorem findIn_setStore_other (st : List (String × String)) (k k2 v : String)
    (h : k ≠ k2) :
    findIn (setStore st k2 v) k = findIn st k := by
  unfold setStore
  rw [findIn_append, findIn_filter_other st k k2 h]
  rcases hf : findIn st k with _ | t
  · simp [findIn, Ne.symm h]
  · rfl

theorem loadOne_fills (enTab frTab : Table) (sf : Bool)
    (translations : AppLanguage → Option Table) (lang : AppLanguage)
    (st : CacheSt) (h : findIn st.cache lang = none) :
    findIn (loadOne enTab frTab sf translations lang st).cache lang =
      some (mergedFor enTab frTab translations lang) := by
  unfold loadOne
  rw [h]
  simp only []
  rw [findIn_append, h]
  simp [findIn]

theorem loadOne_storage_sfTrue (enTab frTab : Table)
    (translations : AppLanguage → Option Table) (lang : AppLanguage)
    (st : CacheSt) :
    (loadOne enTab frTab true translations lang st).storage = st.storage := by
  unfold loadOne
  rcases hc : findIn st.cache lang with _ | t <;> simp [cacheTranslations]

theorem loadOne_storage_sfFalse (enTab frTab : Table)
    (translations : AppLanguage → Option Table) (lang : AppLanguage)
    (st : CacheSt) (h : findIn st.cache lang = none) :
    (loadOne enTab frTab false translations lang st).storage =
      setStore st.storage ("lang_cache_" ++ langCode lang)
        (serializeTable (mergedFor enTab frTab translations lang)) := by
  unfold loadOne
  rw [h]
  simp [cacheTranslations]

/-! ## C7 -/

/-- C7: for every supported language not yet cached, `loadTranslations`
creates the cache entry by taking the factory's fully merged table and —
when the caller supplied an override table for that language — shallow
merging the override on top with override keys winning (`mergedFor`);
the entry lands in the in-memory map, is mirrored to durable storage
under the language-scoped key when the write succeeds, and a persistence
failure leaves the store untouched without removing or altering the
in-memory entry. -/
theorem C7_loadTranslations_fills (enTab frTab : Table) (sf : Bool)
    (translations : AppLanguage → Option Table) (st : CacheSt)
    (lang : AppLanguage) (h : findIn st.cache lang = none) :
    findIn (loadTranslations enTab frTab sf translations st).cache lang =
      some (mergedFor enTab frTab translations lang)
    ∧ (sf = false →
        findIn (loadTranslations enTab frTab sf translations st).storage
            ("lang_cache_" ++ langCode lang) =
          some (serializeTable (mergedFor enTab frTab translations lang)))
    ∧ (sf = true →
        (loadTranslations enTab frTab sf translations st).storage =
          st.storage) := by
  unfold loadTranslations
  cases lang with
  | en =>
    refine ⟨?_, ?_, ?_⟩
    · exact loadOne_preserves enTab frTab sf translations .fr .en _ _
        (loadOne_fills enTab frTab sf translations .en st h)
    · intro hsf
      subst hsf
      rcases hfr : findIn (loadOne enTab frTab false translations .en st).cache .fr
        with _ | t
      · rw [loadOne_storage_sfFalse enTab frTab translations .fr _ hfr,
          findIn_setStore_other _ _ _ _ (by decide),
          loadOne_storage_sfFalse enTab frTab translations .en st h,
          findIn_setStore_self]
      · rw [loadOne_cached enTab frTab false translations .fr _ t hfr,
          loadOne_storage_sfFalse enTab frTab translations .en st h,
          findIn_setStore_self]
    · intro hsf
      subst hsf
      rw [loadOne_storage_sfTrue, loadOne_storage_sfTrue]
  | fr =>
    have hfr : findIn (loadOne enTab frTab sf translations .en st).cache .fr =
        none := by
      rw [loadOne_other enTab frTab sf translations .en .fr st (by decide)]
      exact h
    refine ⟨?_, ?_, ?_⟩
    · exact loadOne_fills enTab frTab sf translations .fr _ hfr
    · intro hsf
      subst hsf
      rw [loadOne_storage_sfFalse enTab frTab translations .fr _ hfr,
        findIn_setStore_self]
    · intro hsf
      subst hsf
      rw [loadOne_storage_sfTrue, loadOne_storage_sfTrue]

/-- Witness for C7: loading into an empty cache creates and mirrors the
`en` entry. -/
theorem C7_loadTranslations_fills_witness :
    findIn (([] : List (AppLanguage × Table))) AppLanguage.en = none
    ∧ findIn (loadTranslations [("a", "A")] [("b", "B")] false (fun _ => none)
        { cache := [], storage := [], mergeCount := 0 }).cache .en =
      some (mergedFor [("a", "A")] [("b", "B")] (fun _ => none) .en) :=
  ⟨rfl,
    (C7_loadTranslations_fills [("a", "A")] [("b", "B")] false (fun _ => none)
      { cache := [], storage := [], mergeCount := 0 } .en rfl).1⟩

/-! ## Emitter lemma for C8 -/

/-- When no registered callback mutates the registry, the `forEach` loop
of `emit` invokes exactly the listeners from index `k` on (up to `fuel`
of them) in order, and leaves the registry unchanged. -/
theorem emitLoop_record (lang : AppLanguage) (fuel : Nat) :
    ∀ (k : Nat) (st : EmitterSt),
      (∀ l ∈ st.listeners, l.behavior = .record) →
      emitLoop lang fuel k st =
        { listeners := st.listeners
          log := st.log ++
            (((st.listeners.drop k).take fuel).map fun l => (l.id, lang)) } := by
  induction fuel with
  | zero =>
    intro k st h
    simp [emitLoop]
  | succ fuel ih =>
    intro k st h
    rcases hget : st.listeners.get? k with _ | l
    · have hlen : st.listeners.length ≤ k := List.get?_eq_none.1 hget
      have hdrop : st.listeners.drop k = [] := List.drop_eq_nil_of_le hlen
      have hdrop2 : st.listeners.drop (k + 1) = [] :=
        List.drop_eq_nil_of_le (le_trans hlen (by omega))
      rw [emitLoop]
      simp only [hget]
      rw [ih (k + 1) st h]
      simp [hdrop, hdrop2]
    · have hb : l.behavior = .record := h l (List.get?_mem hget)
      have hinv : invokeListener lang l st =
          { st with log := st.log ++ [(l.id, lang)] } := by
        unfold invokeListener
        rw [hb]
      have hk : k < st.listeners.length := by
        have hg := List.get?_eq_getElem? st.listeners k
        rw [hg] at hget
        exact (List.getElem?_eq_some.1 hget).1
      have hdropk : st.listeners.drop k =
          st.listeners.get ⟨k, hk⟩ :: st.listeners.drop (k + 1) := by
        exact List.drop_eq_getElem_cons hk
      have hgetl : st.listeners.get ⟨k, hk⟩ = l := by
        have hg := List.get?_eq_some.1 hget
        obtain ⟨h1, h2⟩ := hg
        simpa using h2
      rw [emitLoop]
      simp only [hget]
      rw [hinv, ih (k + 1) _ (by simpa using h)]
      rw [hdropk, hgetl, List.take_succ_cons, List.map_cons, List.append_assoc]
      rfl

/-- `emit` on a registry of non-mutating listeners notifies every
registered listener once, in subscription order. -/
theorem emit_record (lang : AppLanguage) (st : EmitterSt)
    (h : ∀ l ∈ st.listeners, l.behavior = .record) :
    emit lang st =
      { listeners := st.listeners
        log := st.log ++ (st.listeners.map fun l => (l.id, lang)) } := by
  unfold emit
  rw [emitLoop_record lang st.listeners.length 0 st h]
  simp

/-! ## C8 -/

/-- C8: when the storage write in `saveLanguage` fails during
`changeLanguage` to a supported target, the error is swallowed —
the call completes without error, the active language is updated to the
target, the store is simply left unchanged, and every registered
(non-mutating) subscriber is still notified with the target language.
The external `i18n.changeLanguage` call itself succeeds. -/
theorem C8_changeLanguage_persist_failure (st : FacadeSt) (language : String)
    (lang : AppLanguage) (hp : parseLang language = some lang)
    (hrec : ∀ l ∈ st.emitter.listeners, l.behavior = .record) :
    changeLanguage false true st language =
      (none,
        { st with
          currentLanguage := lang
          emitter :=
            { listeners := st.emitter.listeners
              log := st.emitter.log ++
                (st.emitter.listeners.map fun l => (l.id, lang)) } }) := by
  unfold changeLanguage
  rw [hp]
  simp only [Bool.false_eq_true, if_false, saveLanguage, if_true]
  rw [emit_record lang _ hrec]

/-- Witness for C8 at a concrete state with one subscriber and a failing
store. -/
theorem C8_changeLanguage_persist_failure_witness :
    parseLang "fr" = some .fr
    ∧ changeLanguage false true
        { currentLanguage := .en
          isInitialized := true
          cacheSt := { cache := [], storage := [("k", "v")], mergeCount := 0 }
          emitter := { listeners := [⟨7, .record⟩], log := [] } } "fr" =
      (none,
        { currentLanguage := .fr
          isInitialized := true
          cacheSt := { cache := [], storage := [("k", "v")], mergeCount := 0 }
          emitter := { listeners := [⟨7, .record⟩], log := [(7, .fr)] } }) := by
  constructor
  · decide
  · have h := C8_changeLanguage_persist_failure
      { currentLanguage := .en
        isInitialized := true
        cacheSt := { cache := [], storage := [("k", "v")], mergeCount := 0 }
        emitter := { listeners := [⟨7, .record⟩], log := [] } } "fr" .fr
      (by decide) (by decide)
    simpa using h

/-! ## C9 -/

/-- C9: when the facade is Uninitialized and the underlying translation
engine setup throws, `initialize` surfaces the error to the caller and
exposes no partial-Ready state: the initialized flag is still false and
the active language keeps the value it had before the call. -/
theorem C9_initialize_failure (env : ResolverEnv) (enTab frTab : Table)
    (sf : Bool) (translations : AppLanguage → Option Table)
    (allowLanguageOverride : Bool) (st : FacadeSt)
    (h : st.isInitialized = false) :
    (initializeFacade env enTab frTab true sf translations
        allowLanguageOverride st).1.isSome
    ∧ (initializeFacade env enTab frTab true sf translations
        allowLanguageOverride st).2.isInitialized = false
    ∧ (initializeFacade env enTab frTab true sf translations
        allowLanguageOverride st).2.currentLanguage = st.currentLanguage := by
  unfold initializeFacade
  rw [h]
  simp

/-- Witness for C9 at a concrete uninitialized state. -/
theorem C9_initialize_failure_witness :
    (initializeFacade ⟨.absent, .absent, .absent⟩ [("a", "A")] [] true false
        (fun _ => none) true
        { currentLanguage := .fr
          isInitialized := false
          cacheSt := { cache := [], storage := [], mergeCount := 0 }
          emitter := { listeners := [], log := [] } }).2.currentLanguage = .fr :=
  (C9_initialize_failure ⟨.absent, .absent, .absent⟩ [("a", "A")] [] false
    (fun _ => none) true
    { currentLanguage := .fr
      isInitialized := false
      cacheSt := { cache := [], storage := [], mergeCount := 0 }
      emitter := { listeners := [], log := [] } } rfl).2.2

/-! ## C10 -/

/-- C10: `clearCache` empties the in-memory translation cache and — when
the store's `clearAll` succeeds — wipes all durable keys, after which
`getCacheStats` reports zero cached languages and zero stored keys; the
active language and the subscriber registry are left untouched. -/
theorem C10_clearCache_frame (st : FacadeSt) (clearAllFails : Bool) :
    (clearCache clearAllFails st).currentLanguage = st.currentLanguage
    ∧ (clearCache clearAllFails st).emitter = st.emitter
    ∧ (clearCache clearAllFails st).cacheSt.cache = []
    ∧ (clearAllFails = false →
        getCacheStats (clearCache clearAllFails st) = (0, 0)) := by
  refine ⟨rfl, rfl, rfl, ?_⟩
  intro h
  subst h
  rfl

/-- Witness for C10 at a concrete populated state with a working store. -/
theorem C10_clearCache_frame_witness :
    getCacheStats (clearCache false
      { currentLanguage := .fr
        isInitialized := true
        cacheSt := { cache := [(.en, [("a", "A")])], storage := [("k", "v")], mergeCount := 2 }
        emitter := { listeners := [⟨3, .record⟩], log := [] } }) = (0, 0) :=
  (C10_clearCache_frame
    { currentLanguage := .fr
      isInitialized := true
      cacheSt := { cache := [(.en, [("a", "A")])], storage := [("k", "v")], mergeCount := 2 }
      emitter := { listeners := [⟨3, .record⟩], log := [] } } false).2.2.2 rfl
